import Mathlib

/-!
Verification of the retrieval–merge–rank core of the repository.

Shallow embedding conventions:
* Python floats are modelled as exact rationals (ℚ); `round(x, 4)` is modelled
  with the mathematical round-to-nearest on ℚ.
* Python dicts used as raw records are modelled as association lists
  `List (String × String)` (the code coerces every value with `str(...)`).
* `datetime.date` values are modelled by a year/month/day structure together
  with a civil day-number function; `date.today()` is an explicit parameter.
* `datetime.strptime` for the fixed format strings used by the code is
  modelled format-by-format (zero-padded numeric forms).
-/

namespace MiniProj

/-! ### Calendar arithmetic (models Python `datetime.date`) -/

/-- A civil date, as produced by `datetime.strptime(...).date()`. -/
structure SDate where
  year : Nat
  month : Nat
  day : Nat
deriving DecidableEq, Repr

/-- Gregorian leap-year test. -/
def isLeap (y : Nat) : Bool :=
  y % 4 = 0 && (y % 100 != 0 || y % 400 = 0)

/-- Number of days in a month of a given year. -/
def daysInMonth (y m : Nat) : Nat :=
  if m = 2 then (if isLeap y then 29 else 28)
  else if m = 4 || m = 6 || m = 9 || m = 11 then 30
  else 31

/-- A date `datetime` accepts: year 1..9999, valid month and day-of-month. -/
def validDate (dt : SDate) : Bool :=
  1 ≤ dt.year && dt.year ≤ 9999 && 1 ≤ dt.month && dt.month ≤ 12 &&
    1 ≤ dt.day && dt.day ≤ daysInMonth dt.year dt.month

/-- Days between 0000-03-01 and the given date (days-from-civil algorithm). -/
def civilDays (dt : SDate) : Nat :=
  let y := if dt.month ≤ 2 then dt.year - 1 else dt.year
  let era := y / 400
  let yoe := y - era * 400
  let mp := if 2 < dt.month then dt.month - 3 else dt.month + 9
  let doy := (153 * mp + 2) / 5 + dt.day - 1
  let doe := yoe * 365 + yoe / 4 - yoe / 100 + doy
  era * 146097 + doe

/-- Day number with epoch 1970-01-01; `d1 - d2` models `(date1 - date2).days`. -/
def dayNumber (dt : SDate) : Int :=
  (civilDays dt : Int) - 719468

/-! ### `strptime` for the formats the code uses -/

/-- Split a character list on a separator character (Python `str.split(sep)`). -/
def splitOnChar (sep : Char) : List Char → List (List Char)
  | [] => [[]]
  | c :: rest =>
    match splitOnChar sep rest with
    | [] => [[]]
    | g :: gs => if c = sep then [] :: g :: gs else (c :: g) :: gs

/-- Strip leading and trailing whitespace (Python `str.strip()`). -/
def trimList (cs : List Char) : List Char :=
  ((cs.dropWhile Char.isWhitespace).reverse.dropWhile Char.isWhitespace).reverse

def trimStr (s : String) : String := String.mk (trimList s.toList)

/-- Value of a list of decimal digit characters. -/
def digitsVal (cs : List Char) : Nat :=
  cs.foldl (fun acc c => acc * 10 + (c.toNat - '0'.toNat)) 0

/-- Parse a digits-only group of between `lo` and `hi` characters. -/
def parseDigits (lo hi : Nat) (cs : List Char) : Option Nat :=
  if lo ≤ cs.length && cs.length ≤ hi && cs.all Char.isDigit then
    some (digitsVal cs)
  else none

/-- Check an hour/minute/second pair list: each group two digits, in range. -/
def parse2 (cs : List Char) : Option Nat := parseDigits 2 2 cs

/-- The `"%Y-%m-%d"` pattern: 4-digit year, 1–2 digit month and day,
validated exactly as `datetime.strptime` validates it. -/
def parseIsoDate (s : String) : Option SDate :=
  match splitOnChar '-' s.toList with
  | [ys, ms, ds] =>
    match parseDigits 4 4 ys, parseDigits 1 2 ms, parseDigits 1 2 ds with
    | some y, some m, some d =>
      if validDate ⟨y, m, d⟩ then some ⟨y, m, d⟩ else none
    | _, _, _ => none
  | _ => none

/-- The `"%Y-%m-%d %H:%M"` pattern (the time part is checked then dropped,
as `.date()` drops it; a single space separator). -/
def parseIsoDateHM (s : String) : Option SDate :=
  match splitOnChar ' ' s.toList with
  | [datePart, timePart] =>
    match splitOnChar ':' timePart with
    | [hs, ms] =>
      match parseDigits 1 2 hs, parseDigits 1 2 ms with
      | some h, some mi =>
        if h ≤ 23 && mi ≤ 59 then parseIsoDate (String.mk datePart) else none
      | _, _ => none
    | _ => none
  | _ => none

/-- A compact all-digit pattern `%Y%m%d` followed by `extra` further 2-digit
groups (`%H%M` or `%H%M%S`), zero-padded; the date part is validated as
`datetime` validates it and the time groups are range-checked then dropped. -/
def parseCompact (extraGroups : List Nat) (s : String) : Option SDate :=
  let cs := s.toList
  if cs.length = 8 + 2 * extraGroups.length && cs.all Char.isDigit then
    let y := digitsVal (cs.take 4)
    let m := digitsVal ((cs.drop 4).take 2)
    let d := digitsVal ((cs.drop 6).take 2)
    let groups := (List.range extraGroups.length).map
      (fun i => digitsVal ((cs.drop (8 + 2 * i)).take 2))
    if validDate ⟨y, m, d⟩ &&
        (groups.zip extraGroups).all (fun p => p.1 ≤ p.2) then
      some ⟨y, m, d⟩
    else none
  else none

/-- The date/time patterns tried by `_to_iso_date` (src/student/day3/impl/pps_api.py). -/
inductive DateFmt where
  | ymdHM   -- "%Y%m%d%H%M"
  | ymdHMS  -- "%Y%m%d%H%M%S"
  | ymd     -- "%Y%m%d"
  | isoHM   -- "%Y-%m-%d %H:%M"
  | iso     -- "%Y-%m-%d"
deriving DecidableEq, Repr

/-- `datetime.strptime(s, fmt).date()`, per format, as an `Option`. -/
def strptimeDate : DateFmt → String → Option SDate
  | .ymdHM, s => parseCompact [23, 59] s
  | .ymdHMS, s => parseCompact [23, 59, 59] s
  | .ymd, s => parseCompact [] s
  | .isoHM, s => parseIsoDateHM s
  | .iso, s => parseIsoDate s

/-- The ordered format list of `_to_iso_date`. -/
def ppsFormats : List DateFmt := [.ymdHM, .ymdHMS, .ymd, .isoHM, .iso]

/-- Try formats in order; the first that parses wins. -/
def tryFormats : List DateFmt → String → Option SDate
  | [], _ => none
  | f :: fs, s =>
    match strptimeDate f s with
    | some d => some d
    | none => tryFormats fs s

/-- Left-pad the decimal form of `n` with zeros to width `w`. -/
def padNum (w : Nat) (n : Nat) : String :=
  let s := toString n
  String.mk (List.replicate (w - s.length) '0') ++ s

/-- `date.isoformat()`. -/
def isoString (dt : SDate) : String :=
  padNum 4 dt.year ++ "-" ++ padNum 2 dt.month ++ "-" ++ padNum 2 dt.day

/-- `_to_iso_date` (src/student/day3/impl/pps_api.py): strip, try the pattern
list in order, then retry `%Y%m%d` for 8-digit strings, else return `""`. -/
def to_iso_date (s : String) : String :=
  if s = "" then ""
  else
    let t := trimStr s
    match tryFormats ppsFormats t with
    | some d => isoString d
    | none =>
      if t.toList.all Char.isDigit && t.length = 8 then
        match strptimeDate .ymd t with
        | some d => isoString d
        | none => ""
      else ""

/-! ### Canonical item shape (GovNotice dicts produced by the pipeline) -/

/-- The canonical item dict: the fields `_to_notice` emits and `rank.py` reads. -/
structure GovNotice where
  title : String
  url : String
  source : String
  agency : String
  announce_date : String
  close_date : String
  budget : String
  snippet : String
  attachments : List (String × String)
  content_type : String
  score : ℚ
deriving DecidableEq, Repr

/-! ### Ranking engine (src/sub_agents/day3/impl/rank.py) -/

/-- `min`/`max` on rationals written with an explicit comparison so that
concrete values reduce in the kernel. -/
def pyMin (a b : ℚ) : ℚ := if a ≤ b then a else b

def pyMax (a b : ℚ) : ℚ := if a < b then b else a

/-- The fixed `WEIGHTS` dict. -/
def weightDeadline : ℚ := 1 / 2
def weightKeyword : ℚ := 3 / 10
def weightTrust : ℚ := 1 / 5

/-- The fixed `TRUST` table lookup with default 0.5: `TRUST.get(source.lower(), 0.5)`. -/
def lowerStr (s : String) : String := String.mk (s.toList.map Char.toLower)

def trust_score (source : String) : ℚ :=
  if lowerStr source = "nipa" then 1
  else if lowerStr source = "bizinfo" then 9 / 10
  else if lowerStr source = "web" then 3 / 5
  else 1 / 2

/-- `_days_until`: days from `today` to the parsed close date, 9999 when the
string is empty or `strptime(dstr, "%Y-%m-%d")` raises. -/
def days_until (today : SDate) (dstr : String) : Int :=
  if dstr = "" then 9999
  else
    match strptimeDate .iso dstr with
    | some d => dayNumber d - dayNumber today
    | none => 9999

/-- `_deadline_score`. -/
def deadline_score (today : SDate) (close_date : String) : ℚ :=
  let days := days_until today close_date
  if days ≤ 0 then 1
  else if 30 ≤ days then 0
  else pyMax 0 (1 - (days : ℚ) / 30)

/-- Character class of the tokenizer regex `[가-힣A-Za-z0-9]+`. -/
def isWordChar (c : Char) : Bool :=
  ('0' ≤ c && c ≤ '9') || ('a' ≤ c && c ≤ 'z') || ('A' ≤ c && c ≤ 'Z') ||
    (0xAC00 ≤ c.toNat && c.toNat ≤ 0xD7A3)

/-- Maximal runs of word characters (`re.findall` of the class above). -/
def tokenizeAux : List Char → List Char → List String
  | [], cur => if cur = [] then [] else [String.mk cur.reverse]
  | c :: cs, cur =>
    if isWordChar c then tokenizeAux cs (c :: cur)
    else if cur = [] then tokenizeAux cs []
    else String.mk cur.reverse :: tokenizeAux cs []

def tokenize (s : String) : List String := tokenizeAux s.toList []

/-- Python substring containment `needle in haystack`. -/
def strHasSub (haystack needle : String) : Bool :=
  (List.range (haystack.toList.length + 1)).any
    (fun i => needle.toList.isPrefixOf (haystack.toList.drop i))

/-- The per-token points of `_keyword_score`: +2 in title, else +1 in snippet. -/
def tokenPoints (t s : String) (tok : String) : ℚ :=
  if strHasSub t tok then 2 else if strHasSub s tok then 1 else 0

/-- `_keyword_score`. -/
def keyword_score (query title snippet : String) : ℚ :=
  let toks := tokenize (lowerStr query)
  if toks = [] then 0
  else
    let t := lowerStr title
    let s := lowerStr snippet
    let hit := toks.foldl (fun acc tok => acc + tokenPoints t s tok) 0
    let denom := pyMax 1 (2 * (toks.length : ℚ))
    pyMin 1 (hit / denom)

/-- `score_item`. -/
def score_item (today : SDate) (query : String) (it : GovNotice) : ℚ :=
  weightDeadline * deadline_score today it.close_date +
    weightKeyword * keyword_score query it.title it.snippet +
    weightTrust * trust_score it.source

/-- `round(sc, 4)` modelled on exact rationals. -/
def round4 (q : ℚ) : ℚ := (round (q * 10000) : ℚ) / 10000

/-- The tuple `(_days_until(close), -score, -trust)` used as the sort key. -/
def sort_key (today : SDate) (x : GovNotice) : Int × ℚ × ℚ :=
  (days_until today x.close_date, -x.score, -trust_score x.source)

/-- Lexicographic order on sort keys: Python tuple `<=` comparison. -/
def keyLE (a b : Int × ℚ × ℚ) : Prop :=
  a.1 < b.1 ∨ (a.1 = b.1 ∧ (a.2.1 < b.2.1 ∨ (a.2.1 = b.2.1 ∧ a.2.2 ≤ b.2.2)))

instance (a b : Int × ℚ × ℚ) : Decidable (keyLE a b) := by
  unfold keyLE; exact inferInstance

/-- The copied-and-scored item `dict(it); it2["score"] = round(sc, 4)`. -/
def stampScore (today : SDate) (query : String) (it : GovNotice) : GovNotice :=
  { it with score := round4 (score_item today query it) }

/-- `rank_items`: score every item, then `list.sort(key=sort_key)` — a stable
ascending sort, modelled by insertion sort over the lexicographic key order. -/
def rank_items (today : SDate) (items : List GovNotice) (query : String) :
    List GovNotice :=
  (items.map (stampScore today query)).insertionSort
    (fun a b => keyLE (sort_key today a) (sort_key today b))

/-! ### PPS client (src/student/day3/impl/pps_api.py) -/

/-- A raw record: a source-specific dict, with every value read back through
`str(...)` — modelled as an association list with `""` for missing keys. -/
abbrev RawRecord := List (String × String)

/-- `str(item.get(key, ""))`: first binding of the key, or `""`. -/
def rget (item : RawRecord) (key : String) : String :=
  match List.lookup key item with
  | some v => v
  | none => ""

/-- First non-empty candidate among `keys`, mapped through `_to_iso_date`,
keeping only a non-empty parse — the close-date loop of `_to_notice`. -/
def firstIsoOfKeys (item : RawRecord) : List String → String
  | [] => ""
  | k :: ks =>
    let val := trimStr (rget item k)
    if val = "" then firstIsoOfKeys item ks
    else
      let close := to_iso_date val
      if close = "" then firstIsoOfKeys item ks else close

/-- First non-empty candidate among `keys`, verbatim — the budget loop. -/
def firstRawOfKeys (item : RawRecord) : List String → String
  | [] => ""
  | k :: ks =>
    let v := trimStr (rget item k)
    if v = "" then firstRawOfKeys item ks else v

def closeDateKeys : List String := ["bidClseDt", "opengDt", "rlOpngDt", "bidEndDt"]

def budgetKeys : List String := ["presmptPrce", "asignBdgtAmt", "purchsBudgetAmt"]

/-- The fixed placeholder used when the title is missing or empty. -/
def titlePlaceholder : String := "제목 확인 필요"

/-- `_to_notice`: map one raw record to the canonical notice dict. -/
def to_notice (item : RawRecord) : GovNotice :=
  let title := trimStr (rget item "bidNtceNm")
  { title := if title = "" then titlePlaceholder else title
    url := trimStr (rget item "bidNtceDtlUrl")
    source := "pps.data.go.kr"
    agency := trimStr (rget item "ntceInsttNm")
    announce_date := to_iso_date (trimStr (rget item "ntceDt"))
    close_date := firstIsoOfKeys item closeDateKeys
    budget := firstRawOfKeys item budgetKeys
    snippet := ""
    attachments := []
    content_type := "notice"
    score := 0 }

/-- The pagination loop of `pps_fetch_bids`. `adapter page` stands for one
round trip (`SESSION.get` + `_extract_items` on the JSON). Returns the
accumulated notices together with the number of pages fetched. The loop runs
`page`, `page+1`, … while `remaining` iterations are left. -/
def fetchLoop (adapter : Nat → List RawRecord) (rows : Nat) :
    Nat → Nat → List GovNotice × Nat
  | _, 0 => ([], 0)
  | page, remaining + 1 =>
    let items := adapter page
    if items.length = 0 then ([], 1)
    else
      let chunk := items.map to_notice
      if items.length < rows then (chunk, 1)
      else
        let rest := fetchLoop adapter rows (page + 1) remaining
        (chunk ++ rest.1, rest.2 + 1)

/-- The dedup key `(it.get("title",""), it.get("url",""))`. -/
def dkey (it : GovNotice) : String × String := (it.title, it.url)

/-- The dedup pass at the end of `pps_fetch_bids`: keep the first occurrence
of each `(title, url)` key. `seen` is the set built so far. -/
def dedupSeen (seen : List (String × String)) : List GovNotice → List GovNotice
  | [] => []
  | it :: rest =>
    if dkey it ∈ seen then dedupSeen seen rest
    else it :: dedupSeen (dkey it :: seen) rest

def dedupNotices (l : List GovNotice) : List GovNotice := dedupSeen [] l

/-- `pps_fetch_bids`: empty result without a service key, otherwise run the
pagination loop from page 1 up to `page_max` pages and dedup the result. -/
def pps_fetch_bids (service_key : String) (adapter : Nat → List RawRecord)
    (rows page_max : Nat) : List GovNotice :=
  if service_key = "" then []
  else dedupNotices (fetchLoop adapter rows 1 page_max).1

/-! ### Finance client (src/sub_agents/day1/impl/finance_client.py) -/

/-- A raised Python exception: its type name and message. -/
structure PyExc where
  name : String
  msg : String
deriving DecidableEq, Repr

/-- A Python value found in the `last_price` slot: either one `float(...)`
accepts, or one on which the cast raises. -/
inductive PyVal where
  | castable (q : ℚ)
  | uncastable (repr : String)
deriving DecidableEq, Repr

/-- What the `fast_info` probing of one ticker yields: optional price and
currency (covering both the dict-like and the attribute-like shapes, and
`fast_info` itself being `None`). -/
structure FastInfo where
  price : Option PyVal
  currency : Option String
deriving DecidableEq, Repr

/-- One per-symbol output entry of `get_quotes`. -/
inductive QuoteEntry where
  | quote (symbol : String) (price : ℚ) (currency : String)
  | failed (symbol : String) (error : String)
deriving DecidableEq, Repr

def QuoteEntry.symbol : QuoteEntry → String
  | .quote s _ _ => s
  | .failed s _ => s

/-- `_normalize_symbol`: append `.KS` to exactly-6-digit symbols. -/
def normalize_symbol (s : String) : String :=
  if s.toList.length = 6 && s.toList.all Char.isDigit then s ++ ".KS" else s

/-- The body of the per-symbol loop of `get_quotes`. `env sym` is the outcome
of `Ticker(sym)` plus the `fast_info` probing for the normalized symbol. -/
def quoteOne (env : String → Except PyExc FastInfo) (raw : String) : QuoteEntry :=
  match env (normalize_symbol raw) with
  | .error e => .failed (normalize_symbol raw) (e.name ++ ": " ++ e.msg)
  | .ok fi =>
    match fi.price with
    | some (.uncastable r) =>
      .failed (normalize_symbol raw) ("ValueError: invalid price \x27" ++ r ++ "\x27")
    | some (.castable q) =>
      match fi.currency with
      | some c => .quote (normalize_symbol raw) q c
      | none => .failed (normalize_symbol raw) "No fast_info (price/currency missing)"
    | none => .failed (normalize_symbol raw) "No fast_info (price/currency missing)"

/-- `get_quotes`: total per-symbol processing; when the `yfinance` module
cannot be loaded, every symbol is marked with the same import error. -/
def get_quotes (importError : Option PyExc)
    (env : String → Except PyExc FastInfo) (symbols : List String) :
    List QuoteEntry :=
  match importError with
  | some e =>
    symbols.map (fun raw =>
      .failed (normalize_symbol raw) ("ImportError: " ++ e.name ++ ": " ++ e.msg))
  | none => symbols.map (quoteOne env)

/-! ### Day1 fan-out orchestrator (src/sub_agents/day1/impl/agent.py) -/

/-- Modelled from the spec: `Day1Plan` (sub_agents/common/schemas.py is not
under src/). §6 lists the fields the core consumes: `doWeb`, `doStocks`,
ordered keyword and ticker lists, and the query string. -/
structure Day1Plan where
  do_web : Bool
  do_stocks : Bool
  web_keywords : List String
  tickers : List String
deriving DecidableEq, Repr

/-- A raw web-search hit (the list[dict] `search_tavily` returns). -/
structure SearchHit where
  title : String
  url : String
  content : String
deriving DecidableEq, Repr

/-- The three task labels of the fan-out loop. -/
inductive TaskKind where
  | web
  | stock
  | profile
deriving DecidableEq, Repr

def taskLabel : TaskKind → String
  | .web => "web"
  | .stock => "stock"
  | .profile => "profile"

/-- The result type of each labeled task. -/
def TaskOut : TaskKind → Type
  | .web => List SearchHit
  | .stock => List QuoteEntry
  | .profile => String × List String

/-- The per-run results dict, as initialized in `handle`. -/
structure Day1Results where
  query : String
  analysis : Day1Plan
  items : List SearchHit
  tickers : List QuoteEntry
  errors : List String
  company_profile : String
  profile_sources : List String
deriving DecidableEq, Repr

def initResults (query : String) (plan : Day1Plan) : Day1Results :=
  { query := query, analysis := plan, items := [], tickers := [],
    errors := [], company_profile := "", profile_sources := [] }

/-- Which tasks `handle` submits, in submission order. `lt` stands for
`looks_like_ticker` (sub_agents/day1/impl/web_search.py is not under src/;
the predicate is kept abstract). -/
def enabledKinds (lt : String → Bool) (query : String) (plan : Day1Plan) :
    List TaskKind :=
  (if plan.do_web then [TaskKind.web] else []) ++
    (if plan.do_stocks && !plan.tickers.isEmpty then [TaskKind.stock] else []) ++
    (if lt query || !plan.tickers.isEmpty || strHasSub query "기업" ||
        strHasSub query "회사" || strHasSub (lowerStr query) "profile" then
      [TaskKind.profile]
    else [])

/-- One step of the `as_completed` collection loop: merge one finished
task's outcome (a value or a raised exception) into the results. -/
def applyOutcome (res : Day1Results) (kind : TaskKind)
    (outcome : Except PyExc (TaskOut kind)) : Day1Results :=
  match kind, outcome with
  | _, .error e =>
    { res with
      errors := res.errors ++ [taskLabel kind ++ ": " ++ e.name ++ ": " ++ e.msg] }
  | .web, .ok data => { res with items := data }
  | .stock, .ok data => { res with tickers := data }
  | .profile, .ok data =>
    let r1 := if data.1 ≠ "" then { res with company_profile := data.1 } else res
    if data.2 ≠ [] then { r1 with profile_sources := data.2.take 2 } else r1

/-- The collection loop, consuming tasks in completion order. -/
def collectResults (outcomes : (k : TaskKind) → Except PyExc (TaskOut k))
    (order : List TaskKind) (res : Day1Results) : Day1Results :=
  order.foldl (fun r k => applyOutcome r k (outcomes k)) res

/-- Modelled from the spec: `merge_day1_payload`
(sub_agents/day1/impl/merge.py is not under src/). §6: the output exposed to
collaborators is the collected ordered items plus the error list, as one
value per completed run — modelled as returning the assembled results
unchanged. -/
def merge_day1_payload (res : Day1Results) : Day1Results := res

/-- `Day1Agent.handle`: build the skeleton, submit the enabled tasks, collect
them in completion order (`order` — a permutation of `enabledKinds` for real
runs), and merge. `outcomes k` is what task `k`'s future holds: a value or
the exception it raised. -/
def day1_handle (query : String) (plan : Day1Plan)
    (outcomes : (k : TaskKind) → Except PyExc (TaskOut k))
    (order : List TaskKind) : Day1Results :=
  merge_day1_payload (collectResults outcomes order (initResults query plan))

/-! ### Spec-side definitions (for refinement comparisons)

These follow the words of spec.md §4.6 and §4.4, to be compared with the
definitions above, which are translated from the code. -/

/-- Spec wording of `deadlineScore(closeDate)`: empty → 0.0; no accepted
pattern parses → 0.0; else `days = closeDate − today`; `days ≤ 0` → 1.0;
`days ≥ 30` → 0.0; else `1.0 − days/30.0`. -/
def deadlineScoreSpec (today : SDate) (closeDate : String) : ℚ :=
  if closeDate = "" then 0
  else
    match strptimeDate .iso closeDate with
    | none => 0
    | some d =>
      let days : Int := dayNumber d - dayNumber today
      if days ≤ 0 then 1
      else if 30 ≤ days then 0
      else 1 - (days : ℚ) / 30

/-- Spec wording of `keywordScore(query, title, snippet)`: zero tokens → 0.0;
else sum +2.0 per token in the title, else +1.0 per token in the snippet,
divided by `2.0 × token count` (no lower clamp on the denominator), clamped
to at most 1.0. -/
def keywordScoreSpec (query title snippet : String) : ℚ :=
  let toks := tokenize (lowerStr query)
  if toks = [] then 0
  else
    let hit := (toks.map (tokenPoints (lowerStr title) (lowerStr snippet))).sum
    pyMin 1 (hit / (2 * (toks.length : ℚ)))

/-- Spec wording of the date normalization (§4.4): try the ordered pattern
list, first success wins, none → empty string (no 8-digit retry). -/
def toIsoDateSpec (s : String) : String :=
  match tryFormats ppsFormats (trimStr s) with
  | some d => isoString d
  | none => ""

/-! ### Theorems

Rational arithmetic must reduce for concrete evaluations. -/

attribute [local semireducible] Rat.add Rat.mul Rat.inv Rat.sub Rat.ofScientific

theorem pyMax_zero_of_pos {x : ℚ} (h : 0 < x) : pyMax 0 x = x := by
  simp [pyMax, h]

theorem pyMax_one_of_lt {x : ℚ} (h : 1 < x) : pyMax 1 x = x := by
  simp [pyMax, h]

/-- **C2** — For every close-date string: empty or unparseable → deadline
score 0.0; otherwise with `days = closeDate − today`, score 1.0 when
`days ≤ 0`, 0.0 when `days ≥ 30`, and `1.0 − days/30.0` in between; with
`today` pinned to 2026-10-12, closeDate = today scores 1.0, today+15 scores
0.5, today+30 scores 0.0, and an empty closeDate scores 0.0. -/
theorem deadline_score_matches_spec :
    (∀ today s, deadline_score today s = deadlineScoreSpec today s) ∧
      deadline_score ⟨2026, 10, 12⟩ "2026-10-12" = 1 ∧
      deadline_score ⟨2026, 10, 12⟩ "2026-10-27" = 1 / 2 ∧
      deadline_score ⟨2026, 10, 12⟩ "2026-11-11" = 0 ∧
      deadline_score ⟨2026, 10, 12⟩ "" = 0 := by
  refine ⟨?_, by decide, by decide, by decide, by decide⟩
  intro today s
  unfold deadline_score deadlineScoreSpec days_until
  by_cases hs : s = ""
  · simp [hs]
  · simp only [hs, if_false]
    cases hp : strptimeDate .iso s with
    | none => norm_num
    | some d =>
      by_cases h1 : dayNumber d - dayNumber today ≤ 0
      · simp [h1]
      · by_cases h2 : 30 ≤ dayNumber d - dayNumber today
        · simp [h1, h2]
        · simp only [h1, h2, if_false]
          apply pyMax_zero_of_pos
          have hlt : ((dayNumber d - dayNumber today : ℤ) : ℚ) < 30 := by
            exact_mod_cast lt_of_not_le h2
          have := div_lt_one (by norm_num : (0:ℚ) < 30) |>.mpr hlt
          linarith

/-- **C6** — The keyword score tokenizes the query into case-insensitive
alphanumeric tokens, returns 0.0 for zero tokens, and otherwise sums +2.0
per token in the title else +1.0 per token in the snippet, divides by
`2.0 × token count`, and clamps at 1.0; a 2-token query fully present in the
title with an empty snippet scores exactly 1.0, and a title and snippet
containing no token score 0.0. -/
theorem keyword_score_matches_spec :
    (∀ query title snippet,
        keyword_score query title snippet = keywordScoreSpec query title snippet) ∧
      tokenize (lowerStr "AI healthcare") = ["ai", "healthcare"] ∧
      keyword_score "AI healthcare" "all about ai and healthcare" "" = 1 ∧
      keyword_score "AI healthcare" "nothing to see" "" = 0 := by
  refine ⟨?_, by decide, by decide, by decide⟩
  intro query title snippet
  unfold keyword_score keywordScoreSpec
  cases htk : tokenize (lowerStr query) with
  | nil => simp
  | cons t0 ts =>
    simp only [List.foldl_map, reduceCtorEq, if_false]
    have hlen : 1 ≤ ((t0 :: ts).length : ℚ) := by
      have : 1 ≤ (t0 :: ts).length := by simp
      exact_mod_cast this
    have hmax : pyMax 1 (2 * ((t0 :: ts).length : ℚ)) =
        2 * ((t0 :: ts).length : ℚ) := pyMax_one_of_lt (by linarith)
    rw [hmax]
    have hsum : ∀ (l : List String) (f : String → ℚ) (a : ℚ),
        l.foldl (fun acc tok => acc + f tok) a = a + (l.map f).sum := by
      intro l
      induction l with
      | nil => intro f a; simp
      | cons x xs ih => intro f a; simp [ih, add_assoc]
    rw [hsum]
    simp

theorem keyLE_refl (a : Int × ℚ × ℚ) : keyLE a a := by
  unfold keyLE
  exact Or.inr ⟨rfl, Or.inr ⟨rfl, le_refl _⟩⟩

theorem keyLE_of_eq {a b : Int × ℚ × ℚ} (h : a = b) : keyLE a b := h ▸ keyLE_refl a

theorem keyLE_total (a b : Int × ℚ × ℚ) : keyLE a b ∨ keyLE b a := by
  unfold keyLE
  rcases lt_trichotomy a.1 b.1 with h1 | h1 | h1
  · exact Or.inl (Or.inl h1)
  · rcases lt_trichotomy a.2.1 b.2.1 with h2 | h2 | h2
    · exact Or.inl (Or.inr ⟨h1, Or.inl h2⟩)
    · rcases le_total a.2.2 b.2.2 with h3 | h3
      · exact Or.inl (Or.inr ⟨h1, Or.inr ⟨h2, h3⟩⟩)
      · exact Or.inr (Or.inr ⟨h1.symm, Or.inr ⟨h2.symm, h3⟩⟩)
    · exact Or.inr (Or.inr ⟨h1.symm, Or.inl h2⟩)
  · exact Or.inr (Or.inl h1)

theorem keyLE_trans {a b c : Int × ℚ × ℚ} (hab : keyLE a b) (hbc : keyLE b c) :
    keyLE a c := by
  unfold keyLE at *
  rcases hab with h1 | ⟨e1, h1⟩
  · rcases hbc with h2 | ⟨e2, _⟩
    · exact Or.inl (h1.trans h2)
    · exact Or.inl (e2 ▸ h1)
  · rcases hbc with h2 | ⟨e2, h2⟩
    · exact Or.inl (e1 ▸ h2)
    · refine Or.inr ⟨e1.trans e2, ?_⟩
      rcases h1 with h1 | ⟨f1, h1⟩
      · rcases h2 with h2 | ⟨f2, _⟩
        · exact Or.inl (h1.trans h2)
        · exact Or.inl (f2 ▸ h1)
      · rcases h2 with h2 | ⟨f2, h2⟩
        · exact Or.inl (f1 ▸ h2)
        · exact Or.inr ⟨f1.trans f2, h1.trans h2⟩

/-- The primary component is ascending along `keyLE`. -/
theorem keyLE_fst {a b : Int × ℚ × ℚ} (h : keyLE a b) : a.1 ≤ b.1 := by
  unfold keyLE at h
  rcases h with h | ⟨e, _⟩
  · exact le_of_lt h
  · exact le_of_eq e

/-- Filtering on one key value commutes with `orderedInsert`: the inserted
element lands in front of the elements with its own key. -/
theorem filter_orderedInsert_key (today : SDate) (k : Int × ℚ × ℚ)
    (a : GovNotice) :
    ∀ s : List GovNotice,
      (List.orderedInsert (fun u v => keyLE (sort_key today u) (sort_key today v)) a s).filter
          (fun x => decide (sort_key today x = k)) =
        if sort_key today a = k then
          a :: s.filter (fun x => decide (sort_key today x = k))
        else s.filter (fun x => decide (sort_key today x = k)) := by
  intro s
  induction s with
  | nil =>
    by_cases ha : sort_key today a = k <;>
      simp [List.orderedInsert, List.filter, ha]
  | cons b t ih =>
    rw [List.orderedInsert]
    by_cases hr : keyLE (sort_key today a) (sort_key today b)
    · rw [if_pos hr]
      by_cases ha : sort_key today a = k <;>
        simp [List.filter_cons, ha]
    · rw [if_neg hr, List.filter_cons]
      by_cases ha : sort_key today a = k
      · have hb : sort_key today b ≠ k := by
          intro hbk
          exact hr (keyLE_of_eq (ha.trans hbk.symm))
        simp [hb, ih, ha, List.filter_cons]
      · by_cases hb : sort_key today b = k
        · simp [hb, ih, ha, List.filter_cons]
        · simp [hb, ih, ha, List.filter_cons]

/-- Stability of the sort: filtering the sorted list on one key value gives
the same sequence as filtering the input. -/
theorem filter_insertionSort_key (today : SDate) (k : Int × ℚ × ℚ) :
    ∀ l : List GovNotice,
      (l.insertionSort (fun u v => keyLE (sort_key today u) (sort_key today v))).filter
          (fun x => decide (sort_key today x = k)) =
        l.filter (fun x => decide (sort_key today x = k)) := by
  intro l
  induction l with
  | nil => rfl
  | cons a t ih =>
    by_cases ha : sort_key today a = k <;>
      simp [List.insertionSort, filter_orderedInsert_key, List.filter_cons, ha, ih]

/-- A sample notice with a given close date, for concrete evaluations. -/
def sampleNotice (cd : String) : GovNotice :=
  { title := "t", url := "u", source := "web", agency := "", announce_date := "",
    close_date := cd, budget := "", snippet := "", attachments := [],
    content_type := "notice", score := 0 }

/-- **C3 counterexample** — With `today` = 2026-10-12, "2099-01-01" is a
parseable close date, yet `rank_items` places the item with the empty close
date *before* it: the 9999 sentinel does not sort empty/unparseable dates
after every parseable date. -/
theorem rank_items_empty_before_parseable :
    strptimeDate .iso "2099-01-01" = some ⟨2099, 1, 1⟩ ∧
      9999 < days_until ⟨2026, 10, 12⟩ "2099-01-01" ∧
      (rank_items ⟨2026, 10, 12⟩ [sampleNotice "2099-01-01", sampleNotice ""]
            "q").map GovNotice.close_date = ["", "2099-01-01"] := by
  refine ⟨by decide, by decide, by decide⟩

/-- **C3 amended** — `rank_items` stamps every item with its composite score
and stably sorts the stamped list by ascending `(days-until-deadline,
−score, −trust)`, where items with an empty or unparseable close date are
assigned the sentinel 9999 (hence they sort after every item whose parsed
close date is fewer than 9999 days away, though not after later ones): the
output is a permutation of the stamped input, pairwise ordered by the
lexicographic key — in particular pairwise ascending in days-until-deadline
— and filtering on any key value preserves the input order of tied items. -/
theorem rank_items_sort_order :
    ∀ today items query,
      (rank_items today items query).Perm
          (items.map (stampScore today query)) ∧
        (rank_items today items query).Pairwise
          (fun a b => keyLE (sort_key today a) (sort_key today b)) ∧
        (rank_items today items query).Pairwise
          (fun a b =>
            days_until today a.close_date ≤ days_until today b.close_date) ∧
        (∀ k, (rank_items today items query).filter
            (fun x => decide (sort_key today x = k)) =
          (items.map (stampScore today query)).filter
            (fun x => decide (sort_key today x = k))) ∧
        (∀ s, s = "" ∨ strptimeDate .iso s = none →
          days_until today s = 9999) := by
  intro today items query
  have hperm := List.perm_insertionSort
    (fun u v => keyLE (sort_key today u) (sort_key today v))
    (items.map (stampScore today query))
  haveI instTot : IsTotal GovNotice
      (fun u v => keyLE (sort_key today u) (sort_key today v)) :=
    ⟨fun a b => keyLE_total (sort_key today a) (sort_key today b)⟩
  haveI instTrans : IsTrans GovNotice
      (fun u v => keyLE (sort_key today u) (sort_key today v)) :=
    ⟨fun _ _ _ hab hbc => keyLE_trans hab hbc⟩
  have hsorted := List.sorted_insertionSort
    (fun u v => keyLE (sort_key today u) (sort_key today v))
    (items.map (stampScore today query))
  refine ⟨hperm, hsorted, ?_, ?_, ?_⟩
  · exact hsorted.imp (fun h => keyLE_fst h)
  · intro k
    exact filter_insertionSort_key today k (items.map (stampScore today query))
  · intro s hs
    rcases hs with hs | hs
    · simp [days_until, hs]
    · by_cases he : s = ""
      · simp [days_until, he]
      · simp [days_until, he, hs]

theorem deadline_score_mem_unit (today : SDate) (s : String) :
    0 ≤ deadline_score today s ∧ deadline_score today s ≤ 1 := by
  unfold deadline_score
  by_cases h1 : days_until today s ≤ 0
  · simp [h1]
  · by_cases h2 : 30 ≤ days_until today s
    · simp [h1, h2]
    · simp only [h1, h2, if_false]
      unfold pyMax
      by_cases h3 : (0 : ℚ) < 1 - (days_until today s : ℚ) / 30
      · have hd : (0 : ℚ) < (days_until today s : ℚ) := by
          exact_mod_cast lt_of_not_le h1
        constructor
        · simp only [h3, if_pos]
          linarith
        · simp only [h3, if_pos]
          have : (0 : ℚ) < (days_until today s : ℚ) / 30 := by positivity
          linarith
      · simp [h3]

theorem tokenPoints_nonneg (t s tok : String) : 0 ≤ tokenPoints t s tok := by
  unfold tokenPoints
  split_ifs <;> norm_num

theorem foldl_add_nonneg (f : String → ℚ) :
    ∀ (l : List String) (a : ℚ), 0 ≤ a → (∀ x ∈ l, 0 ≤ f x) →
      0 ≤ l.foldl (fun acc tok => acc + f tok) a := by
  intro l
  induction l with
  | nil => intro a ha _; simpa using ha
  | cons x xs ih =>
    intro a ha hf
    have hx : 0 ≤ f x := hf x (by simp)
    exact ih (a + f x) (by linarith) (fun y hy => hf y (by simp [hy]))

theorem keyword_score_mem_unit (q t s : String) :
    0 ≤ keyword_score q t s ∧ keyword_score q t s ≤ 1 := by
  unfold keyword_score
  cases htk : tokenize (lowerStr q) with
  | nil => simp
  | cons t0 ts =>
    simp only [reduceCtorEq, if_false]
    have hhit : 0 ≤ (t0 :: ts).foldl
        (fun acc tok => acc + tokenPoints (lowerStr t) (lowerStr s) tok) 0 :=
      foldl_add_nonneg _ _ 0 le_rfl
        (fun x _ => tokenPoints_nonneg (lowerStr t) (lowerStr s) x)
    have hden : (0 : ℚ) < pyMax 1 (2 * ((t0 :: ts).length : ℚ)) := by
      unfold pyMax
      split_ifs with h
      · linarith
      · norm_num
    constructor
    · unfold pyMin
      split_ifs with h
      · norm_num
      · positivity
    · unfold pyMin
      split_ifs with h
      · exact le_rfl
      · linarith

theorem trust_score_mem_unit (s : String) :
    0 ≤ trust_score s ∧ trust_score s ≤ 1 := by
  unfold trust_score
  split_ifs <;> norm_num

theorem round4_mem_unit {q : ℚ} (h0 : 0 ≤ q) (h1 : q ≤ 1) :
    0 ≤ round4 q ∧ round4 q ≤ 1 := by
  unfold round4
  have hfl : round (q * 10000) = ⌊q * 10000 + 1 / 2⌋ := round_eq _
  have hlo : (0 : ℤ) ≤ round (q * 10000) := by
    rw [hfl]
    apply Int.le_floor.mpr
    push_cast
    nlinarith
  have hhi : round (q * 10000) ≤ 10000 := by
    rw [hfl]
    have : ⌊q * 10000 + 1 / 2⌋ < 10001 := by
      apply Int.floor_lt.mpr
      push_cast
      nlinarith
    omega
  constructor
  · apply div_nonneg _ (by norm_num)
    exact_mod_cast hlo
  · rw [div_le_one (by norm_num)]
    exact_mod_cast hhi

theorem score_item_mem_unit (today : SDate) (query : String) (it : GovNotice) :
    0 ≤ score_item today query it ∧ score_item today query it ≤ 1 := by
  unfold score_item weightDeadline weightKeyword weightTrust
  obtain ⟨d0, d1⟩ := deadline_score_mem_unit today it.close_date
  obtain ⟨k0, k1⟩ := keyword_score_mem_unit query it.title it.snippet
  obtain ⟨t0, t1⟩ := trust_score_mem_unit it.source
  constructor <;> nlinarith

/-- **C7** — The composite score is `0.5·deadline + 0.3·keyword + 0.2·trust`
with the fixed weights summing to 1, unknown sources get trust 0.5, and
every item in the output of `rank_items` carries a score in `[0, 1]`. -/
theorem composite_score_weights_and_bounds :
    weightDeadline + weightKeyword + weightTrust = 1 ∧
      (∀ today query it,
        score_item today query it =
          1 / 2 * deadline_score today it.close_date +
            3 / 10 * keyword_score query it.title it.snippet +
            1 / 5 * trust_score it.source) ∧
      (∀ src, lowerStr src ≠ "nipa" → lowerStr src ≠ "bizinfo" →
        lowerStr src ≠ "web" → trust_score src = 1 / 2) ∧
      (∀ today items query x, x ∈ rank_items today items query →
        0 ≤ x.score ∧ x.score ≤ 1) := by
  refine ⟨by norm_num [weightDeadline, weightKeyword, weightTrust], ?_, ?_, ?_⟩
  · intro today query it
    rfl
  · intro src h1 h2 h3
    simp [trust_score, h1, h2, h3]
  · intro today items query x hx
    rw [rank_items, List.mem_insertionSort] at hx
    obtain ⟨y, _, hy⟩ := List.mem_map.mp hx
    obtain ⟨s0, s1⟩ := score_item_mem_unit today query y
    have : x.score = round4 (score_item today query y) := by
      rw [← hy]; rfl
    rw [this]
    exact round4_mem_unit s0 s1

theorem dedupSeen_sublist :
    ∀ (l : List GovNotice) (seen : List (String × String)),
      (dedupSeen seen l).Sublist l := by
  intro l
  induction l with
  | nil => intro seen; simp [dedupSeen]
  | cons x t ih =>
    intro seen
    rw [dedupSeen]
    by_cases hx : dkey x ∈ seen
    · rw [if_pos hx]
      exact (ih seen).trans (List.sublist_cons_self x t)
    · rw [if_neg hx]
      exact (ih (dkey x :: seen)).cons₂ x

theorem dedupSeen_filter_key (k : String × String) :
    ∀ (l : List GovNotice) (seen : List (String × String)),
      (dedupSeen seen l).filter (fun x => decide (dkey x = k)) =
        if k ∈ seen then []
        else (l.filter (fun x => decide (dkey x = k))).take 1 := by
  intro l
  induction l with
  | nil =>
    intro seen
    by_cases hk : k ∈ seen <;> simp [dedupSeen, hk]
  | cons x t ih =>
    intro seen
    rw [dedupSeen]
    by_cases hx : dkey x ∈ seen
    · rw [if_pos hx, ih seen]
      by_cases hk : k ∈ seen
      · rw [if_pos hk, if_pos hk]
      · have hxk : dkey x ≠ k := fun h => hk (h ▸ hx)
        rw [if_neg hk, if_neg hk, List.filter_cons]
        simp [hxk]
    · rw [if_neg hx, List.filter_cons]
      by_cases hxk : dkey x = k
      · subst hxk
        have h1 : (dedupSeen (dkey x :: seen) t).filter
            (fun y => decide (dkey y = dkey x)) = [] := by
          rw [ih (dkey x :: seen), if_pos (by simp)]
        rw [if_neg hx, List.filter_cons]
        simp [h1]
      · simp only [hxk, decide_False, Bool.false_eq_true, if_false,
          ih (dkey x :: seen)]
        have hmem : (k ∈ dkey x :: seen) ↔ k ∈ seen := by
          constructor
          · intro h
            rcases List.mem_cons.mp h with h | h
            · exact absurd h.symm hxk
            · exact h
          · intro h
            exact List.mem_cons_of_mem _ h
        by_cases hk : k ∈ seen
        · rw [if_pos (hmem.mpr hk), if_pos hk]
        · rw [if_neg (fun h => hk (hmem.mp h)), if_neg hk, List.filter_cons]
          simp [hxk]

theorem dedupSeen_keys_fresh :
    ∀ (l : List GovNotice) (seen : List (String × String)),
      ((dedupSeen seen l).map dkey).Nodup ∧
        ∀ k ∈ (dedupSeen seen l).map dkey, k ∉ seen := by
  intro l
  induction l with
  | nil => intro seen; simp [dedupSeen]
  | cons x t ih =>
    intro seen
    rw [dedupSeen]
    by_cases hx : dkey x ∈ seen
    · rw [if_pos hx]
      exact ih seen
    · rw [if_neg hx]
      obtain ⟨hnd, hfresh⟩ := ih (dkey x :: seen)
      refine ⟨?_, ?_⟩
      · simp only [List.map_cons, List.nodup_cons]
        refine ⟨fun hmem => ?_, hnd⟩
        exact hfresh (dkey x) hmem (by simp)
      · intro k hk
        simp only [List.map_cons, List.mem_cons] at hk
        rcases hk with hk | hk
        · exact hk ▸ hx
        · intro hks
          exact hfresh k hk (by simp [hks])

/-- **C5** — Deduplication on the verbatim `(title, url)` key keeps the first
occurrence of each key, drops every later occurrence, preserves the order of
first occurrences (the output is a sublist of the input whose per-key
restriction is the first element of the input's per-key restriction), and
the key is unique across the output. -/
theorem dedup_first_occurrence_kept :
    ∀ l : List GovNotice,
      (dedupNotices l).Sublist l ∧
        (∀ k, (dedupNotices l).filter (fun x => decide (dkey x = k)) =
          (l.filter (fun x => decide (dkey x = k))).take 1) ∧
        ((dedupNotices l).map dkey).Nodup := by
  intro l
  refine ⟨dedupSeen_sublist l [], ?_, (dedupSeen_keys_fresh l []).1⟩
  intro k
  have := dedupSeen_filter_key k l []
  simpa using this

theorem fetchLoop_full_pages (adapter : Nat → List RawRecord) (rows : Nat)
    (hrows : 0 < rows) :
    ∀ (remaining page : Nat),
      (∀ p, page ≤ p → p < page + remaining → (adapter p).length = rows) →
      (fetchLoop adapter rows page remaining).2 = remaining := by
  intro remaining
  induction remaining with
  | zero => intro page _; rfl
  | succ rem ih =>
    intro page hfull
    have hlen : (adapter page).length = rows :=
      hfull page le_rfl (by omega)
    rw [fetchLoop]
    rw [if_neg (by omega), if_neg (by omega)]
    have := ih (page + 1) (fun p hp1 hp2 => hfull p (by omega) (by omega))
    simp [this]

/-- **C4** — The pagination loop of `pps_fetch_bids` fetches pages
`1..page_max` in order; a page with 0 records stops the loop at once and
contributes nothing; a page with fewer than `rows` records stops the loop
after being accumulated; otherwise the loop continues: an adapter always
returning 0 records causes exactly one fetch with nothing accumulated, a
short page 2 under a 3-page cap stops after page 2 with both pages
accumulated, and full pages throughout cause exactly `page_max` fetches. -/
theorem pagination_stop_rules :
    (∀ adapter rows page rem, adapter page = [] →
      fetchLoop adapter rows page (rem + 1) = ([], 1)) ∧
      (∀ (adapter : Nat → List RawRecord) rows page rem, adapter page ≠ [] →
        (adapter page).length < rows →
        fetchLoop adapter rows page (rem + 1) =
          ((adapter page).map to_notice, 1)) ∧
      (∀ adapter rows pm, 1 ≤ pm → adapter 1 = [] →
        fetchLoop adapter rows 1 pm = ([], 1)) ∧
      (∀ (adapter : Nat → List RawRecord) rows, (adapter 1).length = rows →
        adapter 2 ≠ [] → (adapter 2).length < rows →
        fetchLoop adapter rows 1 3 =
          ((adapter 1).map to_notice ++ (adapter 2).map to_notice, 2)) ∧
      (∀ adapter rows pm, 0 < rows →
        (∀ p, 1 ≤ p → p ≤ pm → (adapter p).length = rows) →
        (fetchLoop adapter rows 1 pm).2 = pm) := by
  refine ⟨?_, ?_, ?_, ?_, ?_⟩
  · intro adapter rows page rem hempty
    rw [fetchLoop]
    simp [hempty]
  · intro adapter rows page rem hne hshort
    have hlen : (adapter page).length ≠ 0 := by
      simpa using fun h => hne (List.length_eq_zero.mp h)
    rw [fetchLoop, if_neg hlen, if_pos hshort]
  · intro adapter rows pm hpm hempty
    obtain ⟨rem, rfl⟩ : ∃ rem, pm = rem + 1 :=
      ⟨pm - 1, by omega⟩
    rw [fetchLoop]
    simp [hempty]
  · intro adapter rows hfull hne hshort
    have hrows : 0 < rows := by
      calc 0 ≤ (adapter 2).length := Nat.zero_le _
        _ < rows := hshort
    have hlen1 : (adapter 1).length ≠ 0 := by omega
    have hlen2 : (adapter 2).length ≠ 0 := by
      simpa using fun h => hne (List.length_eq_zero.mp h)
    rw [fetchLoop, if_neg hlen1, if_neg (by omega)]
    rw [fetchLoop, if_neg hlen2, if_pos hshort]
  · intro adapter rows pm hrows hfull
    exact fetchLoop_full_pages adapter rows hrows pm 1
      (fun p hp1 hp2 => hfull p hp1 (by omega))

theorem tryFormats_eq_none_iff (s : String) :
    ∀ fs : List DateFmt,
      tryFormats fs s = none ↔ ∀ f ∈ fs, strptimeDate f s = none := by
  intro fs
  induction fs with
  | nil => simp [tryFormats]
  | cons f fs ih =>
    rw [tryFormats]
    cases hf : strptimeDate f s with
    | some d =>
      simp only [List.mem_cons]
      constructor
      · intro h; cases h
      · intro h
        have := h f (Or.inl rfl)
        rw [hf] at this
        cases this
    | none =>
      simp only [List.mem_cons, ih]
      constructor
      · intro h g hg
        rcases hg with rfl | hg
        · exact hf
        · exact h g hg
      · intro h g hg
        exact h g (Or.inr hg)

/-- **C9** — Normalization is total and never fails the record: a missing or
empty title becomes the fixed placeholder (the title is never empty), and
each date-like field is parsed by trying the ordered pattern list, the first
success winning, with the empty string — not an error — when nothing
parses. The code's extra 8-digit retry is redundant, so `_to_iso_date`
coincides with the spec's wording. -/
theorem normalization_never_fails :
    (∀ item : RawRecord, (to_notice item).title ≠ "") ∧
      (∀ item : RawRecord,
        (to_notice item).title = trimStr (rget item "bidNtceNm") ∨
          (to_notice item).title = titlePlaceholder) ∧
      (∀ item : RawRecord, trimStr (rget item "bidNtceNm") = "" →
        (to_notice item).title = titlePlaceholder) ∧
      (∀ s, to_iso_date s = toIsoDateSpec s) ∧
      (∀ s, (∀ f ∈ ppsFormats, strptimeDate f (trimStr s) = none) →
        to_iso_date s = "") := by
  have hspec : ∀ s, to_iso_date s = toIsoDateSpec s := by
    intro s
    by_cases hs : s = ""
    · subst hs
      rfl
    · simp only [to_iso_date, toIsoDateSpec, if_neg hs]
      cases ht : tryFormats ppsFormats (trimStr s) with
      | some d => rfl
      | none =>
        have hymd : strptimeDate .ymd (trimStr s) = none :=
          (tryFormats_eq_none_iff (trimStr s) ppsFormats).mp ht .ymd (by decide)
        rw [hymd]
        simp
  refine ⟨?_, ?_, ?_, hspec, ?_⟩
  · intro item
    rw [to_notice]
    by_cases ht : trimStr (rget item "bidNtceNm") = ""
    · simp only [ht, if_pos rfl]
      decide
    · simp [ht]
  · intro item
    rw [to_notice]
    by_cases ht : trimStr (rget item "bidNtceNm") = ""
    · simp [ht]
    · simp [ht]
  · intro item ht
    rw [to_notice]
    simp [ht]
  · intro s hnone
    rw [hspec, toIsoDateSpec,
      (tryFormats_eq_none_iff (trimStr s) ppsFormats).mpr hnone]

/-- The error-list entry a task contributes: one formatted line when its
future raised, nothing when it returned. -/
def errEntry (outcomes : (k : TaskKind) → Except PyExc (TaskOut k))
    (k : TaskKind) : Option String :=
  match outcomes k with
  | .error e => some (taskLabel k ++ ": " ++ e.name ++ ": " ++ e.msg)
  | .ok _ => none

theorem applyOutcome_errors (res : Day1Results) (k : TaskKind)
    (oc : Except PyExc (TaskOut k)) :
    (applyOutcome res k oc).errors = res.errors ++
      (match oc with
        | .error e => [taskLabel k ++ ": " ++ e.name ++ ": " ++ e.msg]
        | .ok _ => []) := by
  cases k <;> cases oc <;>
    first
      | (simp only [applyOutcome]; split_ifs <;> simp)
      | simp [applyOutcome]

theorem collect_errors (outcomes : (k : TaskKind) → Except PyExc (TaskOut k)) :
    ∀ (order : List TaskKind) (res : Day1Results),
      (collectResults outcomes order res).errors =
        res.errors ++ order.filterMap (errEntry outcomes) := by
  intro order
  induction order with
  | nil => intro res; simp [collectResults]
  | cons k t ih =>
    intro res
    rw [collectResults, List.foldl_cons, ← collectResults, ih,
      applyOutcome_errors, List.filterMap_cons, errEntry]
    cases hoc : outcomes k <;> simp [hoc, List.append_assoc]

theorem applyOutcome_items_of_ne (res : Day1Results) (k : TaskKind)
    (oc : Except PyExc (TaskOut k)) (h : k ≠ TaskKind.web) :
    (applyOutcome res k oc).items = res.items := by
  cases k <;> cases oc <;>
    first
      | exact absurd rfl h
      | rfl
      | (simp only [applyOutcome]; split_ifs <;> rfl)

theorem collect_items (outcomes : (k : TaskKind) → Except PyExc (TaskOut k))
    (its : List SearchHit) (hw : outcomes TaskKind.web = Except.ok its) :
    ∀ (order : List TaskKind) (res : Day1Results),
      (collectResults outcomes order res).items =
        if TaskKind.web ∈ order then its else res.items := by
  intro order
  induction order with
  | nil => intro res; simp [collectResults]
  | cons k t ih =>
    intro res
    rw [collectResults, List.foldl_cons, ← collectResults, ih]
    by_cases hk : k = TaskKind.web
    · subst hk
      rw [hw]
      have : (applyOutcome res TaskKind.web (Except.ok its)).items = its := rfl
      rw [this]
      by_cases hmem : TaskKind.web ∈ t <;> simp [hmem]
    · rw [applyOutcome_items_of_ne res k _ hk]
      by_cases hmem : TaskKind.web ∈ t <;>
        simp [hmem, List.mem_cons, Ne.symm hk]

theorem applyOutcome_tickers_of_ne (res : Day1Results) (k : TaskKind)
    (oc : Except PyExc (TaskOut k)) (h : k ≠ TaskKind.stock) :
    (applyOutcome res k oc).tickers = res.tickers := by
  cases k <;> cases oc <;>
    first
      | exact absurd rfl h
      | rfl
      | (simp only [applyOutcome]; split_ifs <;> rfl)

theorem collect_tickers (outcomes : (k : TaskKind) → Except PyExc (TaskOut k))
    (qs : List QuoteEntry) (hw : outcomes TaskKind.stock = Except.ok qs) :
    ∀ (order : List TaskKind) (res : Day1Results),
      (collectResults outcomes order res).tickers =
        if TaskKind.stock ∈ order then qs else res.tickers := by
  intro order
  induction order with
  | nil => intro res; simp [collectResults]
  | cons k t ih =>
    intro res
    rw [collectResults, List.foldl_cons, ← collectResults, ih]
    by_cases hk : k = TaskKind.stock
    · subst hk
      rw [hw]
      have : (applyOutcome res TaskKind.stock (Except.ok qs)).tickers = qs := rfl
      rw [this]
      by_cases hmem : TaskKind.stock ∈ t <;> simp [hmem]
    · rw [applyOutcome_tickers_of_ne res k _ hk]
      by_cases hmem : TaskKind.stock ∈ t <;>
        simp [hmem, List.mem_cons, Ne.symm hk]

theorem applyOutcome_profile_of_ne (res : Day1Results) (k : TaskKind)
    (oc : Except PyExc (TaskOut k)) (h : k ≠ TaskKind.profile) :
    (applyOutcome res k oc).company_profile = res.company_profile ∧
      (applyOutcome res k oc).profile_sources = res.profile_sources := by
  cases k <;> cases oc <;>
    first
      | exact absurd rfl h
      | exact ⟨rfl, rfl⟩

theorem applyOutcome_profile_ok (res : Day1Results) (pr : String × List String) :
    (applyOutcome res TaskKind.profile (Except.ok pr)).company_profile =
        (if pr.1 ≠ "" then pr.1 else res.company_profile) ∧
      (applyOutcome res TaskKind.profile (Except.ok pr)).profile_sources =
        (if pr.2 ≠ [] then pr.2.take 2 else res.profile_sources) := by
  simp only [applyOutcome]
  split_ifs <;> simp_all

theorem collect_profile (outcomes : (k : TaskKind) → Except PyExc (TaskOut k))
    (pr : String × List String)
    (hw : outcomes TaskKind.profile = Except.ok pr) :
    ∀ (order : List TaskKind) (res : Day1Results),
      (collectResults outcomes order res).company_profile =
          (if TaskKind.profile ∈ order ∧ pr.1 ≠ "" then pr.1
            else res.company_profile) ∧
        (collectResults outcomes order res).profile_sources =
          (if TaskKind.profile ∈ order ∧ pr.2 ≠ [] then pr.2.take 2
            else res.profile_sources) := by
  intro order
  induction order with
  | nil => intro res; simp [collectResults]
  | cons k t ih =>
    intro res
    rw [collectResults, List.foldl_cons, ← collectResults]
    obtain ⟨ihc, ihs⟩ := ih (applyOutcome res k (outcomes k))
    by_cases hk : k = TaskKind.profile
    · subst hk
      rw [hw] at ihc ihs ⊢
      obtain ⟨hc, hs⟩ := applyOutcome_profile_ok res pr
      constructor
      · rw [ihc, hc]
        by_cases hp1 : pr.1 = "" <;> by_cases hmem : TaskKind.profile ∈ t <;>
          simp [hp1, hmem]
      · rw [ihs, hs]
        by_cases hp2 : pr.2 = [] <;> by_cases hmem : TaskKind.profile ∈ t <;>
          simp [hp2, hmem]
    · obtain ⟨hc, hs⟩ := applyOutcome_profile_of_ne res k (outcomes k) hk
      constructor
      · rw [ihc, hc]
        by_cases hmem : TaskKind.profile ∈ t <;>
          simp [hmem, List.mem_cons, Ne.symm hk]
      · rw [ihs, hs]
        by_cases hmem : TaskKind.profile ∈ t <;>
          simp [hmem, List.mem_cons, Ne.symm hk]

theorem filterMap_eq_nil_of_none {α β : Type} (g : α → Option β) :
    ∀ l : List α, (∀ a ∈ l, g a = none) → l.filterMap g = [] := by
  intro l
  induction l with
  | nil => intro _; rfl
  | cons a t ih =>
    intro h
    rw [List.filterMap_cons, h a (by simp)]
    exact ih (fun b hb => h b (by simp [hb]))

theorem filterMap_singleton_of_unique {α β : Type} [DecidableEq α]
    (g : α → Option β) (kf : α) (msg : β) (hkf : g kf = some msg) :
    ∀ l : List α, l.Nodup → kf ∈ l → (∀ k ∈ l, k ≠ kf → g k = none) →
      l.filterMap g = [msg] := by
  intro l
  induction l with
  | nil => intro _ hmem; cases hmem
  | cons a t ih =>
    intro hnd hmem hnone
    rcases List.mem_cons.mp hmem with rfl | hmem
    · rw [List.filterMap_cons, hkf]
      have hrest : t.filterMap g = [] := by
        apply filterMap_eq_nil_of_none
        intro b hb
        have hbne : b ≠ kf := fun h => (List.nodup_cons.mp hnd).1 (h ▸ hb)
        exact hnone b (by simp [hb]) hbne
      rw [hrest]
    · have hane : a ≠ kf := by
        intro h
        exact (List.nodup_cons.mp hnd).1 (h ▸ hmem)
      rw [List.filterMap_cons, hnone a (by simp) hane]
      exact ih (List.nodup_cons.mp hnd).2 hmem
        (fun k hk => hnone k (by simp [hk]))

theorem enabledKinds_nodup (lt : String → Bool) (query : String)
    (plan : Day1Plan) : (enabledKinds lt query plan).Nodup := by
  unfold enabledKinds
  split_ifs <;> decide

/-- **C1** — In every orchestrator run where exactly one submitted task's
adapter call raises and the rest return, the merged payload carries the
succeeding capabilities' data (web items, stock quotes, profile summary and
sources), and the error list has exactly one entry, formatted with the
failed capability's label; no failure escapes the collection loop, which is
total by construction. -/
theorem partial_failure_isolated :
    ∀ (lt : String → Bool) (query : String) (plan : Day1Plan)
      (outcomes : (k : TaskKind) → Except PyExc (TaskOut k))
      (order : List TaskKind) (kf : TaskKind) (e : PyExc),
      order.Perm (enabledKinds lt query plan) →
      kf ∈ order →
      outcomes kf = Except.error e →
      (∀ k, k ∈ order → k ≠ kf → ∃ v, outcomes k = Except.ok v) →
      (day1_handle query plan outcomes order).errors =
          [taskLabel kf ++ ": " ++ e.name ++ ": " ++ e.msg] ∧
        (∀ its, TaskKind.web ∈ order →
          outcomes TaskKind.web = Except.ok its →
          (day1_handle query plan outcomes order).items = its) ∧
        (∀ qs, TaskKind.stock ∈ order →
          outcomes TaskKind.stock = Except.ok qs →
          (day1_handle query plan outcomes order).tickers = qs) ∧
        (∀ pr, TaskKind.profile ∈ order →
          outcomes TaskKind.profile = Except.ok pr →
          (day1_handle query plan outcomes order).company_profile = pr.1 ∧
            (day1_handle query plan outcomes order).profile_sources =
              pr.2.take 2) := by
  intro lt query plan outcomes order kf e hperm hmem hfail hok
  have hnd : order.Nodup :=
    hperm.nodup_iff.mpr (enabledKinds_nodup lt query plan)
  refine ⟨?_, ?_, ?_, ?_⟩
  · rw [day1_handle, merge_day1_payload, collect_errors]
    have hkf : errEntry outcomes kf =
        some (taskLabel kf ++ ": " ++ e.name ++ ": " ++ e.msg) := by
      rw [errEntry, hfail]
    have hothers : ∀ k ∈ order, k ≠ kf → errEntry outcomes k = none := by
      intro k hk hne
      obtain ⟨v, hv⟩ := hok k hk hne
      rw [errEntry, hv]
    rw [filterMap_singleton_of_unique (errEntry outcomes) kf _ hkf order
      hnd hmem hothers]
    rfl
  · intro its hw hokw
    rw [day1_handle, merge_day1_payload, collect_items outcomes its hokw,
      if_pos hw]
  · intro qs hs hoks
    rw [day1_handle, merge_day1_payload, collect_tickers outcomes qs hoks,
      if_pos hs]
  · intro pr hp hokp
    obtain ⟨hc, hsrc⟩ := collect_profile outcomes pr hokp order
      (initResults query plan)
    rw [day1_handle, merge_day1_payload]
    constructor
    · rw [hc]
      by_cases hp1 : pr.1 = "" <;> simp [hp, hp1, initResults]
    · rw [hsrc]
      by_cases hp2 : pr.2 = [] <;> simp [hp, hp2, initResults]

/-- Well-formedness of one `get_quotes` output entry: either a price/currency
quote, or an error entry with a non-empty description. -/
def wellFormedEntry : QuoteEntry → Prop
  | .quote _ _ _ => True
  | .failed _ m => m ≠ ""

theorem append_ne_empty_of_left_len (a b : String) (ha : a.length ≠ 0) :
    a ++ b ≠ "" := by
  intro h
  have hlen : (a ++ b).length = 0 := by rw [h]; rfl
  rw [String.length_append] at hlen
  omega

theorem quoteOne_wellFormed (env : String → Except PyExc FastInfo)
    (raw : String) :
    (quoteOne env raw).symbol = normalize_symbol raw ∧
      wellFormedEntry (quoteOne env raw) := by
  cases henv : env (normalize_symbol raw) with
  | error e =>
    simp only [quoteOne, henv]
    refine ⟨rfl, ?_⟩
    show e.name ++ ": " ++ e.msg ≠ ""
    apply append_ne_empty_of_left_len
    rw [String.length_append]
    have : (": ").length = 2 := rfl
    omega
  | ok fi =>
    cases hp : fi.price with
    | none =>
      simp only [quoteOne, henv, hp]
      refine ⟨rfl, ?_⟩
      show "No fast_info (price/currency missing)" ≠ ""
      decide
    | some v =>
      cases v with
      | castable q =>
        cases hc : fi.currency with
        | none =>
          simp only [quoteOne, henv, hp, hc]
          refine ⟨rfl, ?_⟩
          show "No fast_info (price/currency missing)" ≠ ""
          decide
        | some c =>
          simp only [quoteOne, henv, hp, hc]
          exact ⟨rfl, trivial⟩
      | uncastable r =>
        simp only [quoteOne, henv, hp]
        refine ⟨rfl, ?_⟩
        show "ValueError: invalid price \x27" ++ r ++ "\x27" ≠ ""
        apply append_ne_empty_of_left_len
        rw [String.length_append]
        have : ("ValueError: invalid price \x27").length = 27 := rfl
        omega

theorem forall₂_map_self {α β : Type} (P : α → β → Prop) (f : α → β)
    (l : List α) (h : ∀ x ∈ l, P x (f x)) : List.Forall₂ P l (l.map f) := by
  induction l with
  | nil => exact List.Forall₂.nil
  | cons x xs ih =>
    exact List.Forall₂.cons (h x (by simp))
      (ih (fun y hy => h y (by simp [hy])))

/-- **C10** — `get_quotes` returns exactly one entry per input symbol, in
input order, each either a `{symbol, price, currency}` quote or a
`{symbol, error}` entry with a non-empty description; six-digit symbols get
`.KS` appended; per-symbol exceptions, uncastable prices, missing
price/currency data and a failed `yfinance` import all become per-symbol
error entries — the function itself is total and never raises. -/
theorem get_quotes_shape :
    ∀ (importError : Option PyExc) (env : String → Except PyExc FastInfo)
      (symbols : List String),
      (get_quotes importError env symbols).length = symbols.length ∧
        List.Forall₂
          (fun raw entry => QuoteEntry.symbol entry = normalize_symbol raw ∧
            wellFormedEntry entry)
          symbols (get_quotes importError env symbols) ∧
        (∀ s : String, s.toList.length = 6 → s.toList.all Char.isDigit →
          normalize_symbol s = s ++ ".KS") ∧
        (∀ s : String, ¬(s.toList.length = 6 ∧ s.toList.all Char.isDigit) →
          normalize_symbol s = s) := by
  intro importError env symbols
  have hforall : List.Forall₂
      (fun raw entry => QuoteEntry.symbol entry = normalize_symbol raw ∧
        wellFormedEntry entry)
      symbols (get_quotes importError env symbols) := by
    cases importError with
    | some e =>
      rw [get_quotes]
      apply forall₂_map_self
      intro x _
      refine ⟨rfl, ?_⟩
      show "ImportError: " ++ e.name ++ ": " ++ e.msg ≠ ""
      apply append_ne_empty_of_left_len
      rw [String.length_append, String.length_append]
      have h13 : ("ImportError: ").length = 13 := rfl
      have h2 : (": ").length = 2 := rfl
      omega
    | none =>
      rw [get_quotes]
      apply forall₂_map_self
      intro x _
      exact quoteOne_wellFormed env x
  refine ⟨hforall.length_eq.symm, hforall, ?_, ?_⟩
  · intro s h6 hd
    rw [normalize_symbol,
      if_pos (by simp only [Bool.and_eq_true, decide_eq_true_eq]; exact ⟨h6, hd⟩)]
  · intro s hns
    rw [normalize_symbol, if_neg ?_]
    intro hcon
    apply hns
    simpa [Bool.and_eq_true, decide_eq_true_eq] using hcon

/-! ### Concrete instantiations for the witness theorems -/

def wRecord : RawRecord := [("bidNtceNm", "T")]

def wAdapterEmpty : Nat → List RawRecord := fun _ => []

def wAdapterShort : Nat → List RawRecord :=
  fun p => if p = 1 then [wRecord, wRecord] else [wRecord]

def wAdapterFull : Nat → List RawRecord := fun _ => [wRecord, wRecord]

def wPlan : Day1Plan :=
  { do_web := true, do_stocks := true, web_keywords := ["kw"],
    tickers := ["AAPL"] }

def wOutcomes : (k : TaskKind) → Except PyExc (TaskOut k)
  | .web => .ok [⟨"t", "u", "c"⟩]
  | .stock => .error ⟨"RuntimeError", "boom"⟩
  | .profile => .ok ("summary", ["u1", "u2", "u3"])

def wOrder : List TaskKind := [.profile, .web, .stock]

def wEnv : String → Except PyExc FastInfo := fun s =>
  if s = "005930.KS" then .ok ⟨some (.castable 70000), some "KRW"⟩
  else .error ⟨"HTTPError", "404"⟩

/-- Witness for the amended C3 theorem at a concrete run. -/
theorem rank_items_sort_order_witness :
    (rank_items ⟨2026, 10, 12⟩ [sampleNotice "", sampleNotice "2026-10-20"]
        "q").Perm
        ([sampleNotice "", sampleNotice "2026-10-20"].map
          (stampScore ⟨2026, 10, 12⟩ "q")) ∧
      days_until ⟨2026, 10, 12⟩ "" = 9999 :=
  ⟨(rank_items_sort_order ⟨2026, 10, 12⟩
      [sampleNotice "", sampleNotice "2026-10-20"] "q").1,
    (rank_items_sort_order ⟨2026, 10, 12⟩
      [sampleNotice "", sampleNotice "2026-10-20"] "q").2.2.2.2 ""
      (Or.inl rfl)⟩

/-- Witness for C7 at a concrete source and item. -/
theorem composite_score_weights_and_bounds_witness :
    trust_score "unknown-source" = 1 / 2 ∧
      (0 ≤ (stampScore ⟨2026, 10, 12⟩ "q" (sampleNotice "")).score ∧
        (stampScore ⟨2026, 10, 12⟩ "q" (sampleNotice "")).score ≤ 1) :=
  ⟨composite_score_weights_and_bounds.2.2.1 "unknown-source" (by decide)
      (by decide) (by decide),
    composite_score_weights_and_bounds.2.2.2 ⟨2026, 10, 12⟩
      [sampleNotice ""] "q" (stampScore ⟨2026, 10, 12⟩ "q" (sampleNotice ""))
      (by decide)⟩

/-- Witness for C4 at the three concrete adapters of the spec's scenarios. -/
theorem pagination_stop_rules_witness :
    fetchLoop wAdapterEmpty 5 1 3 = ([], 1) ∧
      fetchLoop wAdapterShort 2 1 3 =
        ((wAdapterShort 1).map to_notice ++ (wAdapterShort 2).map to_notice,
          2) ∧
      (fetchLoop wAdapterFull 2 1 3).2 = 3 :=
  ⟨pagination_stop_rules.2.2.1 wAdapterEmpty 5 3 (by decide) rfl,
    pagination_stop_rules.2.2.2.1 wAdapterShort 2 rfl (by decide) (by decide),
    pagination_stop_rules.2.2.2.2 wAdapterFull 2 3 (by decide)
      (fun p _ _ => rfl)⟩

/-- Witness for C9 at a record with no title and an unparseable date. -/
theorem normalization_never_fails_witness :
    (to_notice []).title = titlePlaceholder ∧ to_iso_date "garbage" = "" :=
  ⟨normalization_never_fails.2.2.1 [] (by decide),
    normalization_never_fails.2.2.2.2 "garbage" (by decide)⟩

/-- Witness for C1: three enabled capabilities, the stock task failing. -/
theorem partial_failure_isolated_witness :
    (day1_handle "q" wPlan wOutcomes wOrder).errors =
        ["stock: RuntimeError: boom"] ∧
      (day1_handle "q" wPlan wOutcomes wOrder).items = [⟨"t", "u", "c"⟩] ∧
      (day1_handle "q" wPlan wOutcomes wOrder).company_profile = "summary" ∧
      (day1_handle "q" wPlan wOutcomes wOrder).profile_sources =
        ["u1", "u2"] := by
  have h := partial_failure_isolated (fun _ => false) "q" wPlan wOutcomes
    wOrder .stock ⟨"RuntimeError", "boom"⟩ (by decide) (by decide) rfl
    (fun k hk hne =>
      match k with
      | .web => ⟨[⟨"t", "u", "c"⟩], rfl⟩
      | .stock => absurd rfl hne
      | .profile => ⟨("summary", ["u1", "u2", "u3"]), rfl⟩)
  obtain ⟨hp1, hp2⟩ := h.2.2.2 ("summary", ["u1", "u2", "u3"]) (by decide) rfl
  exact ⟨h.1, h.2.1 [⟨"t", "u", "c"⟩] (by decide) rfl, hp1, hp2.trans rfl⟩

/-- Witness for C10 at a Korean six-digit symbol and a plain symbol. -/
theorem get_quotes_shape_witness :
    (get_quotes none wEnv ["005930", "AAPL"]).length = 2 ∧
      normalize_symbol "005930" = "005930" ++ ".KS" ∧
      normalize_symbol "AAPL" = "AAPL" :=
  ⟨((get_quotes_shape none wEnv ["005930", "AAPL"]).1).trans rfl,
    (get_quotes_shape none wEnv ["005930", "AAPL"]).2.2.1 "005930" (by decide)
      (by decide),
    (get_quotes_shape none wEnv ["005930", "AAPL"]).2.2.2 "AAPL" (by decide)⟩

end MiniProj
